import Mathlib

/-!
Verification of the joke-catalogue programs (`admin.py` and `jokes.py`).

Both programs share one backing file, `data.txt`, holding a JSON array of
objects with keys `setup`, `punchline`, `laughs`, `groans`.  The development
below is a shallow embedding of the shared store, the Admin CLI commands and
the Rating GUI handlers, followed by theorems about their behaviour.

Modelling conventions:
  - the file is modelled by the JSON value that `json.dump` writes and
    `json.load` reads back (string serialization of the `json` module is not
    re-modelled);
  - Python ints that the program keeps non-negative are modelled as `Nat`,
    Python index arithmetic that can go below zero is done in `Int`;
  - Python floats in the `v` command's percentages are modelled as exact
    rationals;
  - interactive printing is modelled by small outcome types, one constructor
    per distinct message or effect.
-/

namespace JokeCat

/-- JSON values as produced by the Python `json` module for this program:
strings, integers, arrays and objects (fields kept in insertion order, as
Python dicts do). -/
inductive Json where
  | str (s : String)
  | num (n : Int)
  | arr (xs : List Json)
  | obj (fields : List (String × Json))

/-- A stored joke: the dictionary
`{"setup": ..., "punchline": ..., "laughs": ..., "groans": ...}` built by the
`a` command of `admin.py`.  The counters are non-negative integers. -/
structure Joke where
  setup : String
  punchline : String
  laughs : Nat
  groans : Nat
  deriving DecidableEq

/-- Key lookup in a JSON object's field list, as Python dict indexing
(`joke["setup"]`) on loaded data; the program writes each key once. -/
def lookupField : List (String × Json) → String → Option Json
  | [], _ => none
  | (k, v) :: rest, key => if k = key then some v else lookupField rest key

/-- `j[key]` on a loaded JSON value. -/
def Json.getField : Json → String → Option Json
  | .obj fields, key => lookupField fields key
  | _, _ => none

/-- `isinstance(data, list)`, the shape check both programs run after
`json.load`. -/
def Json.isList : Json → Bool
  | .arr _ => true
  | _ => false

/-- The JSON object serialized for one joke, keys in the order the program
writes them. -/
def jokeToJson (j : Joke) : Json :=
  .obj [("setup", .str j.setup), ("punchline", .str j.punchline),
        ("laughs", .num (j.laughs : Int)), ("groans", .num (j.groans : Int))]

/-- `save_data` of `admin.py` (and the inline dump in `rate_joke`): the whole
list is serialized to `data.txt` as one JSON array. -/
def save_data (jokes : List Joke) : Json :=
  .arr (jokes.map jokeToJson)

/-- Reading one element of the loaded array back as a joke record: the four
dict accesses `joke["setup"]`, `joke["punchline"]`, `joke["laughs"]`,
`joke["groans"]` used by both programs (counters land in `Nat`). -/
def jokeOfJson (j : Json) : Option Joke :=
  match j.getField "setup", j.getField "punchline",
        j.getField "laughs", j.getField "groans" with
  | some (.str s), some (.str p), some (.num l), some (.num g) =>
      some ⟨s, p, l.toNat, g.toNat⟩
  | _, _, _, _ => none

/-- `json.load` applied to the saved file, exposing the array. -/
def loadList : Json → Option (List Json)
  | .arr xs => some xs
  | _ => none

/-- The states the backing file `data.txt` can be in when a program starts. -/
inductive FileContent where
  | absent
  | unreadable
  | notJson
  | json (j : Json)

/-- The exception classes relevant to `open("data.txt", "r")` followed by
`json.load(file)`. -/
inductive PyExc where
  | fileNotFound
  | permissionError
  | jsonDecodeError
  | valueError
  deriving DecidableEq

/-- `open` plus `json.load`: the exception Python raises for each file state,
or the parsed JSON value. -/
def readJson : FileContent → Except PyExc Json
  | .absent => .error .fileNotFound
  | .unreadable => .error .permissionError
  | .notJson => .error .jsonDecodeError
  | .json j => .ok j

/-- The `try` body of the admin program's initialization: load the file, then
`if not isinstance(data, list): raise ValueError`. -/
def adminTryLoad (f : FileContent) : Except PyExc Json :=
  match readJson f with
  | .error e => .error e
  | .ok d => if d.isList then .ok d else .error .valueError

/-- Program initialization of `admin.py`: the clause
`except (FileNotFoundError, json.JSONDecodeError, ValueError): data = []`
falls back to an empty list; any other exception propagates and aborts the
process before the menu loop. -/
def adminLoad (f : FileContent) : Except PyExc Json :=
  match adminTryLoad f with
  | .ok d => .ok d
  | .error .fileNotFound => .ok (.arr [])
  | .error .jsonDecodeError => .ok (.arr [])
  | .error .valueError => .ok (.arr [])
  | .error e => .error e

/-- How constructing `ProgramGUI` can end: the error dialog followed by
`window.destroy()` (never presenting a joke), an uncaught exception, or a
started session holding the loaded jokes.  The GUI then shuffles the list into
a random presentation order; that order is irrelevant to the startup claims
modelled here. -/
inductive GuiStart where
  | fatalDialog
  | crash (e : PyExc)
  | started (data : List Json)

/-- `ProgramGUI.__init__` of `jokes.py`: load `data.txt`, raise `ValueError`
when `not isinstance(self.data, list) or not self.data`, catch
`(FileNotFoundError, json.JSONDecodeError, ValueError)` with an error dialog
and `window.destroy()`, and let any other exception propagate. -/
def guiInit (f : FileContent) : GuiStart :=
  match (match readJson f with
         | .error e => Except.error e
         | .ok (Json.arr []) => Except.error PyExc.valueError
         | .ok (Json.arr xs) => Except.ok xs
         | .ok _ => Except.error PyExc.valueError) with
  | .ok xs => .started xs
  | .error .fileNotFound => .fatalDialog
  | .error .jsonDecodeError => .fatalDialog
  | .error .valueError => .fatalDialog
  | .error e => .crash e

/-- Python `str.strip()`: drop leading and trailing whitespace. -/
def pyStrip (s : List Char) : List Char :=
  ((s.dropWhile Char.isWhitespace).reverse.dropWhile Char.isWhitespace).reverse

/-- `parts[0]` of `user_input.split(maxsplit=1)` on the already-stripped line:
the first whitespace-delimited token. -/
def firstToken (s : List Char) : List Char :=
  s.takeWhile (fun c => !c.isWhitespace)

/-- `parts[1]` of `split(maxsplit=1)` when present: the rest of the line after
the first token and the separating whitespace run. -/
def splitArg (s : List Char) : Option (List Char) :=
  let rest := (s.dropWhile (fun c => !c.isWhitespace)).dropWhile Char.isWhitespace
  if rest = [] then none else some rest

/-- How one pass of the admin menu loop dispatches a line of input.  `crash`
is the uncaught `IndexError` raised by `parts[0]` when the stripped line is
empty, so that `split` produced no parts at all.  `invalidChoice` is the
"Invalid choice. Please try again." branch. -/
inductive MenuOutcome where
  | crash
  | add
  | list
  | search (arg : Option (List Char))
  | view (arg : Option (List Char))
  | delete (arg : Option (List Char))
  | top
  | quit
  | invalidChoice
  deriving DecidableEq

/-- One pass of the `while True` menu loop of `admin.py`:
strip the line, split off the first token, lower-case it and dispatch on the
single-letter commands. -/
def menuStep (line : List Char) : MenuOutcome :=
  let stripped := pyStrip line
  if stripped = [] then .crash
  else
    let choice := (firstToken stripped).map Char.toLower
    let arg := splitArg stripped
    if choice = ['a'] then .add
    else if choice = ['l'] then .list
    else if choice = ['s'] then .search arg
    else if choice = ['v'] then .view arg
    else if choice = ['d'] then .delete arg
    else if choice = ['t'] then .top
    else if choice = ['q'] then .quit
    else .invalidChoice

/-- The extra commentary of the `v` command (Enhancement 3).  The spec calls
the second category "groan-worthy"; the printed message is
"This joke is groantastic!". -/
inductive Commentary where
  | hilarious
  | groantastic
  deriving DecidableEq

/-- The `elif` cascade on the counters, in source order, evaluated by the `v`
command for rated jokes only. -/
def commentary (laughs groans : Nat) : Option Commentary :=
  if laughs ≥ 5 ∧ groans = 0 then some .hilarious
  else if groans ≥ 5 ∧ laughs = 0 then some .groantastic
  else if laughs ≥ 4 * groans ∧ groans > 0 then some .hilarious
  else if groans ≥ 4 * laughs ∧ laughs > 0 then some .groantastic
  else none

/-- What the `v` command reports about a joke's ratings:
"This joke has not been rated." when both counters are zero, otherwise both
counts with their percentages `(laughs / total) * 100` and
`(groans / total) * 100` (printed to one decimal place; the values are
modelled as exact rationals). -/
inductive ViewStats where
  | unrated
  | rated (laughs groans : Nat) (laughPct groanPct : ℚ)
  deriving DecidableEq

/-- The rating-statistics part of the `v` command, including the
`... if total else 0` guards of the source. -/
def viewStats (j : Joke) : ViewStats :=
  if j.laughs = 0 ∧ j.groans = 0 then .unrated
  else
    let total := j.laughs + j.groans
    .rated j.laughs j.groans
      (if total ≠ 0 then ((j.laughs : ℚ) / (total : ℚ)) * 100 else 0)
      (if total ≠ 0 then ((j.groans : ℚ) / (total : ℚ)) * 100 else 0)

/-- Python `s.lower()`, character by character. -/
def lowerChars (s : List Char) : List Char := s.map Char.toLower

/-- Prefix step of Python's substring test: does `hay` start with `needle`? -/
def startsWithChars : List Char → List Char → Bool
  | [], _ => true
  | _ :: _, [] => false
  | a :: as, b :: bs => (a == b) && startsWithChars as bs

/-- Python `needle in hay` on strings: `needle` occurs contiguously in
`hay`. -/
def containsChars (needle : List Char) : List Char → Bool
  | [] => startsWithChars needle []
  | b :: bs => startsWithChars needle (b :: bs) || containsChars needle bs

/-- The match test of the `s` command:
`term in joke["setup"].lower() or term in joke["punchline"].lower()`
(the caller has already lower-cased `term`). -/
def jokeMatches (term : List Char) (j : Joke) : Bool :=
  containsChars term (lowerChars j.setup.data) ||
  containsChars term (lowerChars j.punchline.data)

/-- The 1-based positions printed by the search loop
(`for i, joke in enumerate(data, start=1)`), counting from `start`. -/
def searchFrom (term : List Char) : Nat → List Joke → List Nat
  | _, [] => []
  | i, j :: rest =>
      if jokeMatches term j then i :: searchFrom term (i + 1) rest
      else searchFrom term (i + 1) rest

/-- The positions the `s` command reports for a search term (the term is
lower-cased first, as in the source). -/
def searchPositions (data : List Joke) (term : String) : List Nat :=
  searchFrom (lowerChars term.data) 1 data

/-- Outcome of the `s` command: "No jokes saved." on an empty catalogue,
"No results found." when the loop matched nothing, otherwise the matched
positions. -/
inductive SearchOutcome where
  | noJokes
  | noResults
  | results (positions : List Nat)
  deriving DecidableEq

/-- The `s` command: guard `if not data`, run the match loop, report
"No results found." when `results_found` stayed false. -/
def searchCmd (data : List Joke) (term : String) : SearchOutcome :=
  if data = [] then .noJokes
  else match searchPositions data term with
       | [] => .noResults
       | ps => .results ps

/-- The admin loop's state: the in-memory list and the last list written to
`data.txt` (the file content, decoded). -/
structure CliState where
  data : List Joke
  file : List Joke
  deriving DecidableEq

/-- Outcome of the `d` command: "No jokes saved.", "Joke deleted." or
"Invalid index number.". -/
inductive DeleteOutcome where
  | noJokes
  | deleted
  | invalidIndex
  deriving DecidableEq

/-- The `d` command with the 1-based position already parsed: guard
`if not data`, compute `index = position - 1`, check `0 <= index < len(data)`,
then `del data[index]; save_data(data)`, else report "Invalid index
number.". -/
def deleteCmd (s : CliState) (position : Nat) : CliState × DeleteOutcome :=
  if s.data = [] then (s, .noJokes)
  else if 0 ≤ (position : Int) - 1 ∧ (position : Int) - 1 < (s.data.length : Int) then
    (⟨s.data.eraseIdx ((position : Int) - 1).toNat,
      s.data.eraseIdx ((position : Int) - 1).toNat⟩, .deleted)
  else (s, .invalidIndex)

/-- One step of Python `max(data, key=key)`: keep the current best, replace it
only when the key is strictly greater, so an earlier maximum survives ties. -/
def maxStep (key : Joke → Nat) (best j : Joke) : Joke :=
  if key j > key best then j else best

/-- Python `max(x :: xs, key=key)`: fold `maxStep` over the tail with the head
as the initial best. -/
def pyMax (key : Joke → Nat) (x : Joke) (xs : List Joke) : Joke :=
  xs.foldl (maxStep key) x

/-- Outcome of the `t` command: "No jokes saved." or the two top jokes. -/
inductive TopOutcome where
  | noJokes
  | top (topLaughs topGroans : Joke)
  deriving DecidableEq

/-- The `t` command: `max(data, key=laughs)` and `max(data, key=groans)` on a
non-empty catalogue. -/
def topCmd (data : List Joke) : TopOutcome :=
  match data with
  | [] => .noJokes
  | x :: xs => .top (pyMax (fun j => j.laughs) x xs) (pyMax (fun j => j.groans) x xs)

/-- Which counter a GUI rating button increments. -/
inductive Rating where
  | laughs
  | groans
  deriving DecidableEq

/-- `self.data[self.current_joke][rating] += 1`. -/
def rateField (r : Rating) (j : Joke) : Joke :=
  match r with
  | .laughs => { j with laughs := j.laughs + 1 }
  | .groans => { j with groans := j.groans + 1 }

/-- The rating session's state: the jokes in presentation order, the file as
last written (decoded), and the cursor `self.current_joke`. -/
structure GuiState where
  data : List Joke
  file : List Joke
  current : Nat
  deriving DecidableEq

/-- What a GUI handler does after its action: refresh the display on joke `i`,
or `window.destroy()` after the last joke. -/
inductive GuiNext where
  | presenting (i : Nat)
  | done
  deriving DecidableEq

/-- `ProgramGUI.rate_joke`: increment the chosen counter of the current joke,
dump the whole list to `data.txt`, then either finish
(`self.current_joke == len(self.data) - 1`) or advance the cursor and show the
next joke.  `none` models the `IndexError` of an out-of-range cursor, which
the GUI never produces. -/
def rate_joke (r : Rating) (s : GuiState) : Option (GuiState × GuiNext) :=
  (s.data[s.current]?).map (fun j =>
    if (s.current : Int) = ((s.data.set s.current (rateField r j)).length : Int) - 1 then
      (⟨s.data.set s.current (rateField r j), s.data.set s.current (rateField r j),
        s.current⟩, GuiNext.done)
    else
      (⟨s.data.set s.current (rateField r j), s.data.set s.current (rateField r j),
        s.current + 1⟩, GuiNext.presenting (s.current + 1)))

/-- `ProgramGUI.abstain_joke`: no counter change and no dump; the same
last-joke test decides between finishing and advancing. -/
def abstain_joke (s : GuiState) : GuiState × GuiNext :=
  if (s.current : Int) = (s.data.length : Int) - 1 then (s, GuiNext.done)
  else ({ s with current := s.current + 1 }, GuiNext.presenting (s.current + 1))

/-- A sample joke for concrete evaluations. -/
def jA : Joke := ⟨"Why did the chicken cross the road", "To get to the other side", 5, 0⟩

/-- A second sample joke. -/
def jB : Joke := ⟨"Knock knock", "Who is there", 5, 1⟩

/-- A third sample joke. -/
def jC : Joke := ⟨"A horse walks into a bar", "Why the long face", 0, 3⟩

/-- Round trip for a single joke: decoding its serialized object restores
every field. -/
theorem jokeOfJson_jokeToJson (j : Joke) : jokeOfJson (jokeToJson j) = some j := rfl

/-- Decoding an encoded list restores it elementwise. -/
theorem mapM_jokeOfJson_map (jokes : List Joke) :
    List.mapM jokeOfJson (jokes.map jokeToJson) = some jokes := by
  induction jokes with
  | nil => rfl
  | cons j rest ih =>
      simp only [List.map_cons, List.mapM_cons, jokeOfJson_jokeToJson, ih]
      rfl

/-- C3: saving any catalogue with the store and loading it back yields an
identical sequence of jokes — the loaded value passes the CLI's shape check
unchanged, and decoding the loaded array gives back the same list (same
length, same order, same `setup`, `punchline`, `laughs` and `groans`
everywhere). -/
theorem save_load_roundtrip (jokes : List Joke) :
    adminLoad (.json (save_data jokes)) = .ok (save_data jokes) ∧
    (loadList (save_data jokes)).bind (List.mapM jokeOfJson) = some jokes := by
  constructor
  · rfl
  · simpa [save_data, loadList] using mapM_jokeOfJson_map jokes

/-- C1: an empty or whitespace-only line at the menu prompt is NOT handled —
`split(maxsplit=1)` returns no parts, `parts[0]` raises an uncaught
`IndexError` and the process crashes, while a non-blank unrecognized token is
reported as "Invalid choice." and the recognized one-letter commands
dispatch. -/
theorem menuStep_blank_crashes :
    menuStep "".data = MenuOutcome.crash ∧
    menuStep "   ".data = MenuOutcome.crash ∧
    menuStep " x! ".data = MenuOutcome.invalidChoice ∧
    menuStep "Q".data = MenuOutcome.quit ∧
    menuStep "a".data = MenuOutcome.add ∧
    menuStep "s hobbit".data = MenuOutcome.search (some "hobbit".data) := by
  refine ⟨rfl, by decide, by decide, by decide, by decide, by decide⟩

/-- C2 counterexample: on an unreadable backing file (`PermissionError`, a
load failure), neither recovery happens — the exception is not among the
caught classes, so the admin program does not fall back to an empty catalogue
and the GUI never shows its error dialog; both crash. -/
theorem unreadable_file_crashes :
    adminLoad .unreadable = .error .permissionError ∧
    guiInit .unreadable = .crash .permissionError := ⟨rfl, rfl⟩

/-- C2 (amended): for the load failures the programs actually catch — file
absent, not valid JSON, or valid JSON that is not an array — the admin CLI
starts with an empty catalogue and continues, while the GUI shows the error
dialog and exits without presenting; the GUI additionally treats a valid but
empty JSON array as the same fatal startup failure (the CLI does not). -/
theorem load_failure_spec (f : FileContent) :
    ((f = .absent ∨ f = .notJson ∨ ∃ j, f = .json j ∧ j.isList = false) →
      adminLoad f = .ok (.arr []) ∧ guiInit f = .fatalDialog) ∧
    (adminLoad (.json (.arr [])) = .ok (.arr []) ∧
      guiInit (.json (.arr [])) = .fatalDialog) := by
  refine ⟨?_, rfl, rfl⟩
  rintro (rfl | rfl | ⟨j, rfl, hj⟩)
  · exact ⟨rfl, rfl⟩
  · exact ⟨rfl, rfl⟩
  · cases j with
    | str s => exact ⟨rfl, rfl⟩
    | num n => exact ⟨rfl, rfl⟩
    | arr xs => simp [Json.isList] at hj
    | obj fields => exact ⟨rfl, rfl⟩

/-- C2 witness: the amended statement at the concrete failing state
`FileContent.absent`. -/
theorem load_failure_spec_witness :
    adminLoad .absent = .ok (.arr []) ∧ guiInit .absent = .fatalDialog :=
  (load_failure_spec .absent).1 (Or.inl rfl)

/-- C5: for every rated joke (`laughs + groans > 0`) the `v` command's
commentary is decided by the first matching tier, in the claim's precedence
order; the "groan-worthy" tier of the spec is the printed
"This joke is groantastic!" message. -/
theorem commentary_tiers (laughs groans : Nat) (h : 0 < laughs + groans) :
    commentary laughs groans =
      if laughs ≥ 5 ∧ groans = 0 then some Commentary.hilarious
      else if groans ≥ 5 ∧ laughs = 0 then some Commentary.groantastic
      else if groans > 0 ∧ laughs ≥ 4 * groans then some Commentary.hilarious
      else if laughs > 0 ∧ groans ≥ 4 * laughs then some Commentary.groantastic
      else none := by
  unfold commentary
  split_ifs <;> first | rfl | omega

/-- C5 witness: the spec's own threshold examples, via the tier theorem. -/
theorem commentary_tiers_witness :
    commentary 5 0 = some Commentary.hilarious ∧
    commentary 0 5 = some Commentary.groantastic ∧
    commentary 8 2 = some Commentary.hilarious ∧
    commentary 2 2 = none := by
  refine ⟨?_, ?_, ?_, ?_⟩
  · rw [commentary_tiers 5 0 (by norm_num)]; decide
  · rw [commentary_tiers 0 5 (by norm_num)]; decide
  · rw [commentary_tiers 8 2 (by norm_num)]; decide
  · rw [commentary_tiers 2 2 (by norm_num)]; decide

/-- C9: the `v` command reports an unrated joke exactly when both counters
are zero, and otherwise reports each counter with its percentage of the
total, `count / (laughs + groans) * 100` (an exact rational, printed to one
decimal place). -/
theorem viewStats_spec (j : Joke) :
    (j.laughs + j.groans = 0 → viewStats j = ViewStats.unrated) ∧
    (0 < j.laughs + j.groans →
      viewStats j = ViewStats.rated j.laughs j.groans
        ((j.laughs : ℚ) / ((j.laughs : ℚ) + (j.groans : ℚ)) * 100)
        ((j.groans : ℚ) / ((j.laughs : ℚ) + (j.groans : ℚ)) * 100)) := by
  constructor
  · intro h
    have hl : j.laughs = 0 := by omega
    have hg : j.groans = 0 := by omega
    simp [viewStats, hl, hg]
  · intro h
    have hne : ¬(j.laughs = 0 ∧ j.groans = 0) := by omega
    have htot : j.laughs + j.groans ≠ 0 := by omega
    simp [viewStats, hne, htot, Nat.cast_add]

/-- C9 witness: a joke with `laughs = 3`, `groans = 1` is reported as
`75.0%` laughs and `25.0%` groans. -/
theorem viewStats_spec_witness :
    viewStats ⟨"a", "b", 3, 1⟩ = ViewStats.rated 3 1 75 25 := by
  have h := (viewStats_spec ⟨"a", "b", 3, 1⟩).2 (by norm_num)
  rw [h]
  norm_num

/-- Updating a list at an in-range index puts the new element there. -/
theorem getElem?_set_self_of_lt {α : Type} (l : List α) (i : Nat) (a : α)
    (h : i < l.length) : (l.set i a)[i]? = some a := by
  have h' : i < (l.set i a).length := by simpa using h
  rw [List.getElem?_eq_getElem h', List.getElem_set]
  simp

/-- Updating a list at one index leaves every other position unchanged. -/
theorem getElem?_set_of_ne {α : Type} (l : List α) (i k : Nat) (a : α)
    (hk : i ≠ k) : (l.set i a)[k]? = l[k]? := by
  by_cases h : k < l.length
  · have h' : k < (l.set i a).length := by simpa using h
    rw [List.getElem?_eq_getElem h', List.getElem?_eq_getElem h, List.getElem_set]
    simp [hk]
  · rw [List.getElem?_eq_none (by simpa using Nat.le_of_not_lt h),
        List.getElem?_eq_none (Nat.le_of_not_lt h)]

/-- Removing the element at an in-range index keeps earlier positions and
shifts later ones down by one. -/
theorem getElem?_eraseIdx {α : Type} (l : List α) (n i : Nat) (hn : n < l.length) :
    (l.eraseIdx n)[i]? = if i < n then l[i]? else l[i + 1]? := by
  have hlen : (l.eraseIdx n).length = l.length - 1 := by
    rw [List.length_eraseIdx, if_pos hn]
  by_cases hi : i < (l.eraseIdx n).length
  · rw [List.getElem?_eq_getElem hi, List.getElem_eraseIdx]
    by_cases hin : i < n
    · rw [dif_pos hin, if_pos hin, List.getElem?_eq_getElem (by omega)]
    · rw [dif_neg hin, if_neg hin, List.getElem?_eq_getElem (by omega)]
  · rw [List.getElem?_eq_none (by omega)]
    by_cases hin : i < n
    · exact absurd hin (by omega)
    · rw [if_neg hin, List.getElem?_eq_none (by omega)]

/-- C7: deleting a valid 1-based position `k` from an `n`-element catalogue
removes exactly that element — the result has `n - 1` elements, positions
before `k` are unchanged, every later joke shifts down by one — and the new
catalogue is written to the file; an out-of-range position reports an
invalid-index condition and changes nothing. -/
theorem deleteCmd_spec (s : CliState) (k : Nat) :
    (1 ≤ k → k ≤ s.data.length →
      ∃ data', deleteCmd s k = (⟨data', data'⟩, DeleteOutcome.deleted) ∧
        data'.length = s.data.length - 1 ∧
        (∀ i, i < k - 1 → data'[i]? = s.data[i]?) ∧
        (∀ i, k - 1 ≤ i → data'[i]? = s.data[i + 1]?)) ∧
    (s.data ≠ [] → (k = 0 ∨ s.data.length < k) →
      deleteCmd s k = (s, DeleteOutcome.invalidIndex)) := by
  constructor
  · intro h1 h2
    have hne : s.data ≠ [] := by
      intro he
      rw [he] at h2
      simp at h2
      omega
    unfold deleteCmd
    rw [if_neg hne, if_pos (⟨by omega, by omega⟩ :
      0 ≤ (k : Int) - 1 ∧ (k : Int) - 1 < (s.data.length : Int))]
    have htn : ((k : Int) - 1).toNat = k - 1 := by omega
    rw [htn]
    refine ⟨s.data.eraseIdx (k - 1), rfl, ?_, ?_, ?_⟩
    · rw [List.length_eraseIdx, if_pos (by omega)]
    · intro i hi
      rw [getElem?_eraseIdx _ _ _ (by omega), if_pos hi]
    · intro i hi
      rw [getElem?_eraseIdx _ _ _ (by omega), if_neg (by omega)]
  · intro hne hout
    unfold deleteCmd
    rw [if_neg hne, if_neg (by omega :
      ¬(0 ≤ (k : Int) - 1 ∧ (k : Int) - 1 < (s.data.length : Int)))]

/-- C7 witness: deleting position 2 of a 3-element catalogue, and an
out-of-range delete at position 5. -/
theorem deleteCmd_spec_witness :
    (∃ data', deleteCmd ⟨[jA, jB, jC], [jA, jB, jC]⟩ 2 = (⟨data', data'⟩, DeleteOutcome.deleted) ∧
      data'.length = ([jA, jB, jC] : List Joke).length - 1 ∧
      (∀ i, i < 2 - 1 → data'[i]? = ([jA, jB, jC] : List Joke)[i]?) ∧
      (∀ i, 2 - 1 ≤ i → data'[i]? = ([jA, jB, jC] : List Joke)[i + 1]?)) ∧
    deleteCmd ⟨[jA, jB, jC], [jA, jB, jC]⟩ 5 =
      (⟨[jA, jB, jC], [jA, jB, jC]⟩, DeleteOutcome.invalidIndex) :=
  ⟨(deleteCmd_spec ⟨[jA, jB, jC], [jA, jB, jC]⟩ 2).1 (by norm_num) (by decide),
   (deleteCmd_spec ⟨[jA, jB, jC], [jA, jB, jC]⟩ 5).2 (by decide) (by decide)⟩

/-- The Python `max` fold keeps a maximal element, never decreases the key of
the initial best, and — unless it returns the initial best — returns an
element strictly greater than everything before it in the list. -/
theorem foldl_maxStep_spec (key : Joke → Nat) (l : List Joke) (b : Joke) :
    key b ≤ key (l.foldl (maxStep key) b) ∧
    (∀ y ∈ l, key y ≤ key (l.foldl (maxStep key) b)) ∧
    (l.foldl (maxStep key) b = b ∨
      ∃ i, l[i]? = some (l.foldl (maxStep key) b) ∧
        key b < key (l.foldl (maxStep key) b) ∧
        ∀ y ∈ l.take i, key y < key (l.foldl (maxStep key) b)) := by
  induction l generalizing b with
  | nil => exact ⟨le_refl _, by simp, Or.inl rfl⟩
  | cons x t ih =>
    rw [List.foldl_cons]
    by_cases hx : key x > key b
    · have hstep : maxStep key b x = x := if_pos hx
      rw [hstep]
      rcases ih x with ⟨h1, h2, h3⟩
      refine ⟨le_of_lt (lt_of_lt_of_le hx h1), ?_, ?_⟩
      · intro y hy
        rcases List.mem_cons.mp hy with rfl | hy'
        · exact h1
        · exact h2 y hy'
      · rcases h3 with heq | ⟨i, hget, hlt, hpre⟩
        · right
          refine ⟨0, ?_, ?_, by simp⟩
          · rw [heq, List.getElem?_cons_zero]
          · rw [heq]; exact hx
        · right
          refine ⟨i + 1, ?_, lt_trans hx hlt, ?_⟩
          · rw [List.getElem?_cons_succ]; exact hget
          · rw [List.take_succ_cons]
            intro y hy
            rcases List.mem_cons.mp hy with rfl | hy'
            · exact hlt
            · exact hpre y hy'
    · have hstep : maxStep key b x = b := if_neg hx
      rw [hstep]
      rcases ih b with ⟨h1, h2, h3⟩
      refine ⟨h1, ?_, ?_⟩
      · intro y hy
        rcases List.mem_cons.mp hy with rfl | hy'
        · exact le_trans (Nat.le_of_not_lt hx) h1
        · exact h2 y hy'
      · rcases h3 with heq | ⟨i, hget, hlt, hpre⟩
        · exact Or.inl heq
        · right
          refine ⟨i + 1, ?_, hlt, ?_⟩
          · rw [List.getElem?_cons_succ]; exact hget
          · rw [List.take_succ_cons]
            intro y hy
            rcases List.mem_cons.mp hy with rfl | hy'
            · exact lt_of_le_of_lt (Nat.le_of_not_lt hx) hlt
            · exact hpre y hy'

/-- `pyMax` returns the first maximum of a non-empty list: an element at some
position `i` that every element is `≤` and everything before `i` is `<`. -/
theorem pyMax_first_max (key : Joke → Nat) (x : Joke) (xs : List Joke) :
    ∃ i, (x :: xs)[i]? = some (pyMax key x xs) ∧
      (∀ y ∈ x :: xs, key y ≤ key (pyMax key x xs)) ∧
      ∀ y ∈ (x :: xs).take i, key y < key (pyMax key x xs) := by
  rcases foldl_maxStep_spec key xs x with ⟨h1, h2, h3⟩
  have hall : ∀ y ∈ x :: xs, key y ≤ key (pyMax key x xs) := by
    intro y hy
    rcases List.mem_cons.mp hy with rfl | hy'
    · exact h1
    · exact h2 y hy'
  rcases h3 with heq | ⟨i, hget, hlt, hpre⟩
  · refine ⟨0, ?_, hall, by simp⟩
    show (x :: xs)[0]? = some (xs.foldl (maxStep key) x)
    rw [heq, List.getElem?_cons_zero]
  · refine ⟨i + 1, ?_, hall, ?_⟩
    · rw [List.getElem?_cons_succ]; exact hget
    · rw [List.take_succ_cons]
      intro y hy
      rcases List.mem_cons.mp hy with rfl | hy'
      · exact hlt
      · exact hpre y hy'

/-- C6: on a non-empty catalogue the `t` command returns the joke with
maximum `laughs` and the joke with maximum `groans`, in each case the first
maximum in sequence order (every earlier joke is strictly below it); on an
empty catalogue it reports "No jokes saved." instead. -/
theorem topCmd_spec (data : List Joke) :
    (data = [] → topCmd data = TopOutcome.noJokes) ∧
    (data ≠ [] → ∃ tl tg, topCmd data = TopOutcome.top tl tg ∧
      (∃ i, data[i]? = some tl ∧ (∀ y ∈ data, y.laughs ≤ tl.laughs) ∧
        ∀ y ∈ data.take i, y.laughs < tl.laughs) ∧
      (∃ i, data[i]? = some tg ∧ (∀ y ∈ data, y.groans ≤ tg.groans) ∧
        ∀ y ∈ data.take i, y.groans < tg.groans)) := by
  constructor
  · rintro rfl; rfl
  · intro hne
    cases data with
    | nil => exact absurd rfl hne
    | cons x xs =>
        exact ⟨pyMax (fun j => j.laughs) x xs, pyMax (fun j => j.groans) x xs, rfl,
               pyMax_first_max (fun j => j.laughs) x xs,
               pyMax_first_max (fun j => j.groans) x xs⟩

/-- C6 witness: a tie on `laughs` between the first two jokes is won by the
earlier-inserted one, and the maximum `groans` joke is the third. -/
theorem topCmd_spec_witness :
    topCmd [jA, jB, jC] = TopOutcome.top jA jC ∧
    (∃ tl tg, topCmd [jA, jB, jC] = TopOutcome.top tl tg ∧
      (∃ i, ([jA, jB, jC] : List Joke)[i]? = some tl ∧
        (∀ y ∈ [jA, jB, jC], y.laughs ≤ tl.laughs) ∧
        ∀ y ∈ ([jA, jB, jC] : List Joke).take i, y.laughs < tl.laughs) ∧
      (∃ i, ([jA, jB, jC] : List Joke)[i]? = some tg ∧
        (∀ y ∈ [jA, jB, jC], y.groans ≤ tg.groans) ∧
        ∀ y ∈ ([jA, jB, jC] : List Joke).take i, y.groans < tg.groans)) :=
  ⟨by decide, (topCmd_spec [jA, jB, jC]).2 (by decide)⟩

/-- `rateField` adds exactly 1 to the chosen counter and 0 to the other,
leaving the text fields alone. -/
theorem rateField_increments (r : Rating) (j : Joke) :
    rateField r j =
      { j with laughs := j.laughs + (if r = Rating.laughs then 1 else 0),
               groans := j.groans + (if r = Rating.groans then 1 else 0) } := by
  cases r <;> simp [rateField]

/-- C4: a Rate action on a valid cursor increments exactly the chosen counter
of the current joke by 1 (no other joke and no other field changes), writes
the full updated catalogue to the file, and then transitions — to `Done` when
the cursor was on the last joke, otherwise to presenting the joke at
`current + 1`. -/
theorem rate_joke_spec (r : Rating) (s : GuiState) (h : s.current < s.data.length) :
    ∃ j s' next,
      s.data[s.current]? = some j ∧
      rate_joke r s = some (s', next) ∧
      s'.data[s.current]? = some
        { j with laughs := j.laughs + (if r = Rating.laughs then 1 else 0),
                 groans := j.groans + (if r = Rating.groans then 1 else 0) } ∧
      (∀ k, k ≠ s.current → s'.data[k]? = s.data[k]?) ∧
      s'.data.length = s.data.length ∧
      s'.file = s'.data ∧
      (s.current + 1 = s.data.length → next = GuiNext.done) ∧
      (s.current + 1 ≠ s.data.length →
        next = GuiNext.presenting (s.current + 1) ∧ s'.current = s.current + 1) := by
  have hj : s.data[s.current]? = some s.data[s.current] := List.getElem?_eq_getElem h
  by_cases hlast : s.current + 1 = s.data.length
  · have hrj : rate_joke r s = some
        (⟨s.data.set s.current (rateField r s.data[s.current]),
          s.data.set s.current (rateField r s.data[s.current]), s.current⟩, GuiNext.done) := by
      unfold rate_joke
      rw [hj, Option.map_some', if_pos (by simp [List.length_set]; omega :
        (s.current : Int) =
          ((s.data.set s.current (rateField r s.data[s.current])).length : Int) - 1)]
    refine ⟨s.data[s.current], _, _, hj, hrj, ?_, ?_, ?_, rfl, fun _ => rfl,
            fun hne => absurd hlast hne⟩
    · rw [getElem?_set_self_of_lt _ _ _ h, rateField_increments]
    · intro k hk
      exact getElem?_set_of_ne _ _ _ _ (fun he => hk he.symm)
    · simp [List.length_set]
  · have hrj : rate_joke r s = some
        (⟨s.data.set s.current (rateField r s.data[s.current]),
          s.data.set s.current (rateField r s.data[s.current]), s.current + 1⟩,
         GuiNext.presenting (s.current + 1)) := by
      unfold rate_joke
      rw [hj, Option.map_some', if_neg (by simp [List.length_set]; omega :
        ¬((s.current : Int) =
          ((s.data.set s.current (rateField r s.data[s.current])).length : Int) - 1))]
    refine ⟨s.data[s.current], _, _, hj, hrj, ?_, ?_, ?_, rfl,
            fun he => absurd he hlast, fun _ => ⟨rfl, rfl⟩⟩
    · rw [getElem?_set_self_of_lt _ _ _ h, rateField_increments]
    · intro k hk
      exact getElem?_set_of_ne _ _ _ _ (fun he => hk he.symm)
    · simp [List.length_set]

/-- C4 witness: rating the first of two jokes with "laughs". -/
theorem rate_joke_spec_witness :
    ∃ j s' next,
      ([jA, jB] : List Joke)[0]? = some j ∧
      rate_joke Rating.laughs ⟨[jA, jB], [jA, jB], 0⟩ = some (s', next) ∧
      s'.data[0]? = some
        { j with laughs := j.laughs + (if Rating.laughs = Rating.laughs then 1 else 0),
                 groans := j.groans + (if Rating.laughs = Rating.groans then 1 else 0) } ∧
      (∀ k, k ≠ 0 → s'.data[k]? = ([jA, jB] : List Joke)[k]?) ∧
      s'.data.length = ([jA, jB] : List Joke).length ∧
      s'.file = s'.data ∧
      (0 + 1 = ([jA, jB] : List Joke).length → next = GuiNext.done) ∧
      (0 + 1 ≠ ([jA, jB] : List Joke).length →
        next = GuiNext.presenting (0 + 1) ∧ s'.current = 0 + 1) :=
  rate_joke_spec Rating.laughs ⟨[jA, jB], [jA, jB], 0⟩ (by decide)

/-- C10: an Abstain action changes no joke and does not touch the file, and
follows the same transition rule as Rate — finish on the last joke, otherwise
advance the cursor by one. -/
theorem abstain_joke_spec (s : GuiState) (h : s.current < s.data.length) :
    (abstain_joke s).1.data = s.data ∧
    (abstain_joke s).1.file = s.file ∧
    (s.current + 1 = s.data.length → (abstain_joke s).2 = GuiNext.done) ∧
    (s.current + 1 ≠ s.data.length →
      (abstain_joke s).2 = GuiNext.presenting (s.current + 1) ∧
      (abstain_joke s).1.current = s.current + 1) := by
  unfold abstain_joke
  by_cases hlast : s.current + 1 = s.data.length
  · rw [if_pos (by omega : (s.current : Int) = (s.data.length : Int) - 1)]
    exact ⟨rfl, rfl, fun _ => rfl, fun hne => absurd hlast hne⟩
  · rw [if_neg (by omega : ¬((s.current : Int) = (s.data.length : Int) - 1))]
    exact ⟨rfl, rfl, fun he => absurd he hlast, fun _ => ⟨rfl, rfl⟩⟩

/-- C10 witness: abstaining on the only joke of a session whose file differs
from the in-memory list — the list, the file and the counters all stay as
they were and the GUI finishes. -/
theorem abstain_joke_spec_witness :
    (abstain_joke ⟨[jA], [], 0⟩).1.data = [jA] ∧
    (abstain_joke ⟨[jA], [], 0⟩).1.file = ([] : List Joke) ∧
    (0 + 1 = ([jA] : List Joke).length → (abstain_joke ⟨[jA], [], 0⟩).2 = GuiNext.done) ∧
    (0 + 1 ≠ ([jA] : List Joke).length →
      (abstain_joke ⟨[jA], [], 0⟩).2 = GuiNext.presenting (0 + 1) ∧
      (abstain_joke ⟨[jA], [], 0⟩).1.current = 0 + 1) :=
  abstain_joke_spec ⟨[jA], [], 0⟩ (by decide)

/-- `startsWithChars` holds exactly when the needle is a prefix. -/
theorem startsWithChars_iff (needle : List Char) :
    ∀ hay, startsWithChars needle hay = true ↔ ∃ rest, hay = needle ++ rest := by
  induction needle with
  | nil =>
      intro hay
      constructor
      · intro _
        exact ⟨hay, rfl⟩
      · intro _
        rfl
  | cons a as ih =>
      intro hay
      cases hay with
      | nil =>
          simp [startsWithChars]
      | cons b bs =>
          rw [show startsWithChars (a :: as) (b :: bs) =
                ((a == b) && startsWithChars as bs) from rfl,
              Bool.and_eq_true, beq_iff_eq, ih bs]
          constructor
          · rintro ⟨rfl, rest, rfl⟩
            exact ⟨rest, rfl⟩
          · rintro ⟨rest, hres⟩
            rw [List.cons_append] at hres
            injection hres with h1 h2
            exact ⟨h1.symm, rest, h2⟩

/-- `containsChars` is Python's `in` on strings: the needle occurs as a
contiguous substring. -/
theorem containsChars_iff (needle : List Char) :
    ∀ hay, containsChars needle hay = true ↔ ∃ pre post, hay = pre ++ needle ++ post := by
  intro hay
  induction hay with
  | nil =>
      rw [show containsChars needle [] = startsWithChars needle [] from rfl,
          startsWithChars_iff]
      constructor
      · rintro ⟨rest, hres⟩
        exact ⟨[], rest, by simpa using hres⟩
      · rintro ⟨pre, post, hpp⟩
        rcases List.append_eq_nil.mp hpp.symm with ⟨hpn, hpost⟩
        rcases List.append_eq_nil.mp hpn with ⟨hpre, hn⟩
        exact ⟨[], by simp [hn]⟩
  | cons b bs ih =>
      rw [show containsChars needle (b :: bs) =
            (startsWithChars needle (b :: bs) || containsChars needle bs) from rfl,
          Bool.or_eq_true, startsWithChars_iff, ih]
      constructor
      · rintro (⟨rest, hres⟩ | ⟨pre, post, hpp⟩)
        · exact ⟨[], rest, by simpa using hres⟩
        · exact ⟨b :: pre, post, by simp [hpp]⟩
      · rintro ⟨pre, post, hpp⟩
        cases pre with
        | nil => exact Or.inl ⟨post, by simpa using hpp⟩
        | cons c pre' =>
            rw [List.cons_append, List.cons_append] at hpp
            injection hpp with h1 h2
            exact Or.inr ⟨pre', post, h2⟩

/-- Membership in the search loop's output, relative to the starting
position. -/
theorem mem_searchFrom (term : List Char) (l : List Joke) :
    ∀ start p, p ∈ searchFrom term start l ↔
      ∃ k j, l[k]? = some j ∧ p = start + k ∧ jokeMatches term j = true := by
  induction l with
  | nil =>
      intro start p
      simp [searchFrom]
  | cons x t ih =>
      intro start p
      rw [show searchFrom term start (x :: t) =
            (if jokeMatches term x then start :: searchFrom term (start + 1) t
             else searchFrom term (start + 1) t) from rfl]
      by_cases hm : jokeMatches term x = true
      · rw [if_pos hm]
        constructor
        · intro hp
          rcases List.mem_cons.mp hp with rfl | hp'
          · exact ⟨0, x, List.getElem?_cons_zero, by omega, hm⟩
          · rcases (ih (start + 1) p).mp hp' with ⟨k, j, hk, hpk, hjm⟩
            exact ⟨k + 1, j, by rw [List.getElem?_cons_succ]; exact hk, by omega, hjm⟩
        · rintro ⟨k, j, hk, rfl, hjm⟩
          cases k with
          | zero => exact List.mem_cons.mpr (Or.inl (by omega))
          | succ kk =>
              rw [List.getElem?_cons_succ] at hk
              exact List.mem_cons.mpr (Or.inr ((ih (start + 1) (start + (kk + 1))).mpr
                ⟨kk, j, hk, by omega, hjm⟩))
      · rw [if_neg hm]
        constructor
        · intro hp
          rcases (ih (start + 1) p).mp hp with ⟨k, j, hk, hpk, hjm⟩
          exact ⟨k + 1, j, by rw [List.getElem?_cons_succ]; exact hk, by omega, hjm⟩
        · rintro ⟨k, j, hk, rfl, hjm⟩
          cases k with
          | zero =>
              rw [List.getElem?_cons_zero] at hk
              injection hk with hk'
              rw [← hk'] at hjm
              exact absurd hjm hm
          | succ kk =>
              rw [List.getElem?_cons_succ] at hk
              exact (ih (start + 1) (start + (kk + 1))).mpr ⟨kk, j, hk, by omega, hjm⟩

/-- C8: the search loop reports position `i + 1` exactly when the lower-cased
term is a contiguous substring of the lower-cased setup or of the lower-cased
punchline of the joke at index `i`; a matchless search on a non-empty
catalogue reports "No results found.", which is a different outcome from the
"No jokes saved." of an empty catalogue. -/
theorem search_spec (data : List Joke) (term : String) :
    (∀ i, ∀ hi : i < data.length,
      ((i + 1) ∈ searchPositions data term ↔
        (∃ pre post, lowerChars (data.get ⟨i, hi⟩).setup.data =
            pre ++ lowerChars term.data ++ post) ∨
        ∃ pre post, lowerChars (data.get ⟨i, hi⟩).punchline.data =
            pre ++ lowerChars term.data ++ post)) ∧
    (data = [] → searchCmd data term = SearchOutcome.noJokes) ∧
    (data ≠ [] → searchPositions data term = [] →
      searchCmd data term = SearchOutcome.noResults) ∧
    SearchOutcome.noJokes ≠ SearchOutcome.noResults := by
  refine ⟨?_, ?_, ?_, by decide⟩
  · intro i hi
    rw [searchPositions, mem_searchFrom]
    constructor
    · rintro ⟨k, j, hk, hik, hjm⟩
      have hki : k = i := by omega
      rw [hki] at hk
      rw [List.getElem?_eq_getElem hi] at hk
      injection hk with hk'
      have hget : data.get ⟨i, hi⟩ = j := by rw [List.get_eq_getElem]; exact hk'
      rw [hget]
      unfold jokeMatches at hjm
      rw [Bool.or_eq_true, containsChars_iff, containsChars_iff] at hjm
      exact hjm
    · intro hor
      refine ⟨i, data.get ⟨i, hi⟩, ?_, by omega, ?_⟩
      · rw [List.get_eq_getElem]
        exact List.getElem?_eq_getElem hi
      · unfold jokeMatches
        rw [Bool.or_eq_true, containsChars_iff, containsChars_iff]
        exact hor
  · rintro rfl
    rfl
  · intro hne hempty
    unfold searchCmd
    rw [if_neg hne, hempty]

/-- C8 witness: an upper-cased term matching inside the setup, the empty
catalogue, and a non-empty catalogue with no match. -/
theorem search_spec_witness :
    (1 : Nat) ∈ searchPositions [jA] "CHICKEN" ∧
    searchCmd [] "CHICKEN" = SearchOutcome.noJokes ∧
    searchCmd [jA] "zzz" = SearchOutcome.noResults := by
  refine ⟨?_, ?_, ?_⟩
  · exact ((search_spec [jA] "CHICKEN").1 0 (by decide)).mpr
      (Or.inl ⟨"why did the ".data, " cross the road".data, by decide⟩)
  · exact (search_spec [] "CHICKEN").2.1 rfl
  · exact (search_spec [jA] "zzz").2.2.1 (by decide) (by decide)

end JokeCat
